import Mathlib

/-!
Verification of the province data-access layer of the
`clausewitz-style-web-map-projection` repository.

The embedded code consists of:
* `src/core/models.py` — pydantic models `Province` and `ProvincesData`;
* `src/core/helpers.py` — `load_provinces` (the Loader);
* `src/main.py` — an inlined copy of `load_provinces`, the endpoint handlers
  `get_provinces` / `get_province`, and `_get_map_layer_files`.

Modelling conventions:
* A parsed JSON document is a `Json` value.  `Json.obj` carries an association
  list of fields; it models a Python `dict` as produced by `json.load`, whose
  keys are distinct.  All reads go through `dictGet?`, which returns the
  **last** binding of a key, matching `dict` update semantics ("last write
  wins"), and coincides with ordinary lookup on duplicate-free lists.
  Non-integral JSON number literals do not occur in any property considered
  here and are left out of the `Json` type.
* Pydantic runs in its default ("lax") mode: an `int` field accepts a Python
  `int` or a string that pydantic-core's `str_as_int` cleaning accepts — after
  trimming whitespace, dropping one leading `+`, dropping an all-zero
  fractional part (`"42.0"`), and removing digit-grouping underscores
  (`"1_000"`), an optional `-` followed by decimal digits; a `str` field
  accepts exactly strings.  Extra fields of a payload are
  ignored (pydantic's default `extra='ignore'`), and fields have no defaults
  except `ProvincesData.provinces`, whose `default_factory` is `dict`.
* Fallible Python code (raising exceptions) is embedded in `Except String`;
  the file system at the fixed path `provinces.json` is a `FileState`, with
  `json.load` abstracted as: a present file is either malformed (the parser
  raises) or parses to a `Json` value.
-/

/-- A parsed JSON value, as produced by Python's `json.load`. -/
inductive Json where
  | null : Json
  | bool (b : Bool) : Json
  | int (n : Int) : Json
  | str (s : String) : Json
  | arr (elems : List Json) : Json
  | obj (fields : List (String × Json)) : Json

/-- Lookup in an association list modelling a Python `dict`: the **last**
binding of the key wins, mirroring `dict` insertion/update semantics. -/
def dictGet? {α : Type} : List (String × α) → String → Option α
  | [], _ => none
  | (k, v) :: rest, key =>
    match dictGet? rest key with
    | some r => some r
    | none => if k = key then some v else none

@[simp] theorem dictGet?_nil {α : Type} (key : String) :
    dictGet? ([] : List (String × α)) key = none := rfl

theorem dictGet?_cons {α : Type} (k : String) (v : α) (rest : List (String × α))
    (key : String) :
    dictGet? ((k, v) :: rest) key =
      match dictGet? rest key with
      | some r => some r
      | none => if k = key then some v else none := rfl

/-- Field access on a JSON value: `j[name]` when `j` is an object. -/
def Json.get? (j : Json) (name : String) : Option Json :=
  match j with
  | .obj fields => dictGet? fields name
  | _ => none

/-- Trim leading and trailing whitespace, as pydantic-core does before
parsing a numeric string. -/
def trimWs (cs : List Char) : List Char :=
  ((cs.dropWhile Char.isWhitespace).reverse.dropWhile Char.isWhitespace).reverse

/-- Split at the first `'.'`: the part before it, and (when a dot is present)
the fractional part after it. -/
def splitFrac : List Char → List Char × Option (List Char)
  | [] => ([], none)
  | '.' :: rest => ([], some rest)
  | c :: rest =>
    let p := splitFrac rest
    (c :: p.1, p.2)

/-- Worker for `groupedDigits`: the flag records whether the previous
character was a digit (an underscore is only legal right after a digit and
right before one). -/
def groupedDigitsAux : Bool → List Char → Option (List Char)
  | _, [] => some []
  | prevDigit, c :: rest =>
    if c.isDigit then
      (groupedDigitsAux true rest).map (fun ds => c :: ds)
    else if c = '_' then
      if prevDigit then
        match rest with
        | d :: _ => if d.isDigit then groupedDigitsAux false rest else none
        | [] => none
      else none
    else none

/-- Accept a run of decimal digits with Python-style grouping underscores
(each underscore strictly between two digits) and return the digits with the
underscores removed; `none` if any other character or a misplaced underscore
occurs. -/
def groupedDigits (ds : List Char) : Option (List Char) :=
  groupedDigitsAux false ds

/-- Numeric value of a list of decimal digits. -/
def digitsToNat (ds : List Char) : Nat :=
  ds.foldl (fun acc c => acc * 10 + (c.toNat - 48)) 0

/-- Pydantic-core's lax string-to-integer cleaning (`str_as_int`):
surrounding whitespace is trimmed, one leading `'+'` is dropped, a fractional
part consisting only of zeros is dropped (so `"42.0"` is the integer 42,
`"42.5"` is rejected), and digit-grouping underscores are removed
(`"1_000"`); what remains must be an optional `'-'` followed by at least one
decimal digit. -/
def parseIntStr (s : String) : Option Int :=
  let cs0 := trimWs s.toList
  let cs :=
    match cs0 with
    | '+' :: rest => rest
    | _ => cs0
  let p := splitFrac cs
  let fracOk :=
    match p.2 with
    | none => true
    | some frac => frac.all (fun c => c = '0')
  if fracOk then
    match p.1 with
    | '-' :: ds =>
      match groupedDigits ds with
      | some ds' => if ds' = [] then none else some (-(digitsToNat ds' : Int))
      | none => none
    | ds =>
      match groupedDigits ds with
      | some ds' => if ds' = [] then none else some ((digitsToNat ds' : Int))
      | none => none
  else none

example : parseIntStr "3" = some 3 := rfl

example : parseIntStr " 3 " = some 3 := rfl

example : parseIntStr "42.000" = some 42 := rfl

example : parseIntStr "1_000" = some 1000 := rfl

example : parseIntStr "-17" = some (-17) := rfl

example : parseIntStr "42.5" = none := rfl

example : parseIntStr "_1000" = none := rfl

example : parseIntStr "abc" = none := rfl

/-- Pydantic lax validation of an `int` field: accepts an integer, or a string
spelling a decimal integer (coerced); everything else is rejected. -/
def validateInt : Json → Except String Int
  | .int n => .ok n
  | .str s =>
    match parseIntStr s with
    | some n => .ok n
    | none => .error "Input should be a valid integer, unable to parse string as an integer"
  | _ => .error "Input should be a valid integer"

/-- Pydantic lax validation of a `str` field: accepts exactly strings. -/
def validateStr : Json → Except String String
  | .str s => .ok s
  | _ => .error "Input should be a valid string"

/-- Extract a required `int` field from a payload: absence or a value that
fails `validateInt` is an error. -/
def fieldInt (fields : List (String × Json)) (name : String) : Except String Int :=
  match dictGet? fields name with
  | none => .error (name ++ ": Field required")
  | some v =>
    match validateInt v with
    | .ok n => .ok n
    | .error e => .error (name ++ ": " ++ e)

/-- Extract a required `str` field from a payload: absence or a value that
fails `validateStr` is an error. -/
def fieldStr (fields : List (String × Json)) (name : String) : Except String String :=
  match dictGet? fields name with
  | none => .error (name ++ ": Field required")
  | some v =>
    match validateStr v with
    | .ok s => .ok s
    | .error e => .error (name ++ ": " ++ e)

/-- The `Province` pydantic model (`src/core/models.py`): eight required
fields. -/
structure Province where
  id : Int
  name : String
  type : String
  owner : String
  development : Int
  trade_goods : String
  terrain : String
  description : String
  deriving DecidableEq, Repr

/-- Validation of one province payload (`Province.model_validate`): the input
must be a dict, each of the eight declared fields must be present and pass its
field validator; unknown extra fields are ignored. -/
def Province.validate (j : Json) : Except String Province :=
  match j with
  | .obj fields => do
    let idv ← fieldInt fields "id"
    let namev ← fieldStr fields "name"
    let typev ← fieldStr fields "type"
    let ownerv ← fieldStr fields "owner"
    let devv ← fieldInt fields "development"
    let tgv ← fieldStr fields "trade_goods"
    let terrainv ← fieldStr fields "terrain"
    let descv ← fieldStr fields "description"
    .ok ⟨idv, namev, typev, ownerv, devv, tgv, terrainv, descv⟩
  | _ => .error "Input should be a valid dictionary"

/-- Serialization of a `Province` (`model_dump`): the dict of its eight
fields. -/
def Province.model_dump (p : Province) : Json :=
  .obj [("id", .int p.id), ("name", .str p.name), ("type", .str p.type),
    ("owner", .str p.owner), ("development", .int p.development),
    ("trade_goods", .str p.trade_goods), ("terrain", .str p.terrain),
    ("description", .str p.description)]

/-- The `ProvincesData` pydantic model (`src/core/models.py`): a mapping from
lookup-key strings to `Province` records, defaulting to the empty mapping. -/
structure ProvincesData where
  provinces : List (String × Province) := []
  deriving DecidableEq, Repr

/-- The bare constructor call `ProvincesData()`: the `default_factory` yields
an empty mapping. -/
def ProvincesData.empty : ProvincesData := ⟨[]⟩

/-- Validate every entry of the `provinces` mapping; the first failing entry
fails the whole list (pydantic reports the entry's key in the error). -/
def validateEntries : List (String × Json) → Except String (List (String × Province))
  | [] => .ok []
  | (k, v) :: rest => do
    let p ←
      match Province.validate v with
      | .ok p => Except.ok p
      | .error e => Except.error (k ++ "." ++ e)
    let ps ← validateEntries rest
    .ok ((k, p) :: ps)

/-- Validation of the root document (`ProvincesData.model_validate`): the
input must be a dict; a missing `provinces` key falls back to the default
empty mapping; otherwise `provinces` must be a dict of payloads, every one of
which must validate (all-or-nothing). -/
def ProvincesData.validate (j : Json) : Except String ProvincesData :=
  match j with
  | .obj fields =>
    match dictGet? fields "provinces" with
    | none => .ok ProvincesData.empty
    | some (.obj pfields) =>
      match validateEntries pfields with
      | .ok entries => .ok ⟨entries⟩
      | .error e => .error e
    | some _ => .error "provinces: Input should be a valid dictionary"
  | _ => .error "Input should be a valid dictionary"

/-- Serialization of a `ProvincesData` (`model_dump`). -/
def ProvincesData.model_dump (d : ProvincesData) : Json :=
  .obj [("provinces", .obj (d.provinces.map (fun e => (e.1, e.2.model_dump))))]

example : Province.validate (.obj [("id", .int 1), ("name", .str "Scotland"),
    ("type", .str "land"), ("owner", .str "SCO"), ("development", .int 3),
    ("trade_goods", .str "wool"), ("terrain", .str "hills"),
    ("description", .str "A northern province.")]) =
    .ok ⟨1, "Scotland", "land", "SCO", 3, "wool", "hills", "A northern province."⟩ := rfl

example : Province.validate (.obj [("id", .int 1)]) =
    .error "name: Field required" := rfl

/-- State of the file system at the fixed path `provinces.json`: the file is
absent, or present but malformed (so that `json.load` raises a parse error),
or present and parsing to a `Json` document. -/
inductive FileState where
  | absent : FileState
  | malformed : FileState
  | content (j : Json) : FileState

/-- Outcome of a Loader invocation: a dataset, a propagated `json.load` parse
error, or a propagated pydantic validation error. -/
inductive LoadResult where
  | ok (d : ProvincesData) : LoadResult
  | parseError : LoadResult
  | validationError (msg : String) : LoadResult
  deriving DecidableEq, Repr

namespace Helpers

/-- Module-level constant `PROVINCES_FILE` of `src/core/helpers.py`. -/
def PROVINCES_FILE : String := "provinces.json"

/-- The Loader of `src/core/helpers.py` (`load_provinces`): an absent file
yields `ProvincesData()`; otherwise the file is parsed (a parse failure
propagates) and validated (a validation failure propagates). -/
def load_provinces (fs : FileState) : LoadResult :=
  match fs with
  | .absent => .ok ProvincesData.empty
  | .malformed => .parseError
  | .content j =>
    match ProvincesData.validate j with
    | .ok d => .ok d
    | .error e => .validationError e

end Helpers

namespace Main

/-- Module-level constant `PROVINCES_FILE` of `src/main.py`. -/
def PROVINCES_FILE : String := "provinces.json"

/-- The copy of `load_provinces` inlined in `src/main.py`, translated from its
own source text (identical body to the helper). -/
def load_provinces (fs : FileState) : LoadResult :=
  match fs with
  | .absent => .ok ProvincesData.empty
  | .malformed => .parseError
  | .content j =>
    match ProvincesData.validate j with
    | .ok d => .ok d
    | .error e => .validationError e

end Main

/-- Result of an HTTP endpoint handler: a JSON body, or an `HTTPException`
with a status code and detail string. -/
inductive EndpointResult where
  | ok (body : Json) : EndpointResult
  | httpException (status : Nat) (detail : String) : EndpointResult

/-- The lookup step of the `/api/provinces/{province_id}` handler
(`get_province` in `src/main.py`), applied to the freshly loaded dataset:
`provinces_data.provinces.get(province_id)`; `None` becomes a 404, otherwise
the province is serialized. -/
def get_province (provinces_data : ProvincesData) (province_id : String) : EndpointResult :=
  match dictGet? provinces_data.provinces province_id with
  | none => .httpException 404 "Province not found"
  | some province => .ok province.model_dump

/-- The `/api/provinces` handler (`get_provinces` in `src/main.py`): load and
serialize; `none` models a load error escaping the handler. -/
def get_provinces (fs : FileState) : Option Json :=
  match Main.load_provinces fs with
  | .ok provinces_data => some provinces_data.model_dump
  | _ => none

/-- Lexicographic comparison of character lists by code point, the order
Python's `sorted` uses on strings. -/
def lexLe : List Char → List Char → Bool
  | [], _ => true
  | _ :: _, [] => false
  | a :: as, b :: bs =>
    if a.toNat = b.toNat then lexLe as bs else decide (a.toNat < b.toNat)

/-- String comparison by code points. -/
def strLe (a b : String) : Bool := lexLe a.toList b.toList

/-- Insert into a sorted list of strings. -/
def insertSorted (x : String) : List String → List String
  | [] => [x]
  | y :: ys => if strLe x y then x :: y :: ys else y :: insertSorted x ys

/-- Sorting a list of strings (`sorted(...)` in Python). -/
def sortStrings : List String → List String
  | [] => []
  | x :: xs => insertSorted x (sortStrings xs)

/-- Does `pat` occur as a contiguous substring of `s`? -/
def containsSub (pat s : List Char) : Bool :=
  s.tails.any (fun t => pat.isPrefixOf t)

/-- The glob pattern `*map*.png`: a name matches iff it is of the form
`a ++ "map" ++ b ++ ".png"`, i.e. iff it ends in `".png"` and `"map"` occurs
in the part before that suffix. -/
def globMapPng (name : String) : Bool :=
  let cs := name.toList
  ".png".toList.isSuffixOf cs && containsSub "map".toList (cs.take (cs.length - 4))

/-- The asset-listing helper `_get_map_layer_files` of `src/main.py`.  The
`static` directory is `none` when absent, otherwise the list of its entry
names; the code globs `*map*.png`, drops the two reserved names, and sorts. -/
def _get_map_layer_files (staticDir : Option (List String)) : List String :=
  match staticDir with
  | none => []
  | some files =>
    sortStrings ((files.filter globMapPng).filter
      (fun n => (n != "data_map.png") && (n != "visual_map.png")))

/-- The eight declared field names of `Province`. -/
def fieldNames : List String :=
  ["id", "name", "type", "owner", "development", "trade_goods", "terrain", "description"]

/-- Does a JSON value have the primitive type §6 declares for field `name`? -/
def typedOk (name : String) (v : Json) : Bool :=
  if name = "id" ∨ name = "development" then
    match v with
    | .int _ => true
    | _ => false
  else
    match v with
    | .str _ => true
    | _ => false

/-- A province payload matches the §6 schema: an object whose keys are exactly
the eight declared names, each value of the declared primitive type. -/
def provincePayloadSchemaOk : Json → Bool
  | .obj fs =>
    fs.all (fun e => decide (e.1 ∈ fieldNames)) &&
    fieldNames.all (fun name =>
      match dictGet? fs name with
      | some v => typedOk name v
      | none => false)
  | _ => false

/-- A document matches the §6 schema: an object with the single key
`provinces`, mapping to an object all of whose values are schema-conforming
province payloads. -/
def docSchemaOk : Json → Bool
  | .obj fs =>
    fs.all (fun e => e.1 = "provinces") &&
    (match dictGet? fs "provinces" with
     | some (.obj ps) => ps.all (fun e => provincePayloadSchemaOk e.2)
     | _ => false)
  | _ => false

/-- The `provinces` mapping of a document, as an association list. -/
def provincesOf (j : Json) : List (String × Json) :=
  match j.get? "provinces" with
  | some (.obj ps) => ps
  | _ => []

/-- Spec notion of record equivalence: two JSON values agree on every field
lookup (same fields, same values; field order not significant). -/
def payloadEquiv (a b : Json) : Prop := ∀ name, a.get? name = b.get? name

/-- Spec notion of mapping equivalence: the same set of keys, equivalent
payloads under each key (key order not significant). -/
def mapEquiv (a b : List (String × Json)) : Prop :=
  ∀ k,
    match dictGet? a k, dictGet? b k with
    | some x, some y => payloadEquiv x y
    | none, none => True
    | _, _ => False

theorem dictGet?_append {α : Type} (a b : List (String × α)) (key : String) :
    dictGet? (a ++ b) key =
      match dictGet? b key with
      | some r => some r
      | none => dictGet? a key := by
  induction a with
  | nil =>
    simp only [List.nil_append, dictGet?_nil]
    cases h : dictGet? b key <;> simp [h]
  | cons hd tl ih =>
    obtain ⟨k, v⟩ := hd
    simp only [List.cons_append, dictGet?_cons, ih]
    cases hb : dictGet? b key <;> cases ht : dictGet? tl key <;> simp [dictGet?_cons]

theorem dictGet?_eq_none_iff {α : Type} (l : List (String × α)) (key : String) :
    dictGet? l key = none ↔ key ∉ l.map Prod.fst := by
  induction l with
  | nil => simp
  | cons hd tl ih =>
    obtain ⟨k, v⟩ := hd
    rw [dictGet?_cons]
    cases h : dictGet? tl key with
    | some r =>
      rw [h] at ih
      simp only [List.map_cons, List.mem_cons]
      simp at ih
      simp [ih]
    | none =>
      have ih' : key ∉ List.map Prod.fst tl := ih.mp h
      by_cases hk : k = key
      · subst hk
        simp
      · have h2 : ¬key = k := fun hh => hk hh.symm
        simp [hk, h2, ih']

theorem dictGet?_mem {α : Type} {l : List (String × α)} {key : String} {v : α}
    (h : dictGet? l key = some v) : (key, v) ∈ l := by
  induction l with
  | nil => simp [dictGet?] at h
  | cons hd tl ih =>
    obtain ⟨k, w⟩ := hd
    rw [dictGet?_cons] at h
    cases ht : dictGet? tl key with
    | some r =>
      rw [ht] at h
      simp at h
      subst h
      exact List.mem_cons_of_mem _ (ih ht)
    | none =>
      rw [ht] at h
      by_cases hk : k = key
      · simp [hk] at h
        subst hk
        subst h
        exact List.mem_cons_self _ _
      · simp [hk] at h

theorem dictGet?_map_value {α β : Type} (g : α → β) (l : List (String × α)) (key : String) :
    dictGet? (l.map (fun e => (e.1, g e.2))) key = (dictGet? l key).map g := by
  induction l with
  | nil => simp
  | cons hd tl ih =>
    obtain ⟨k, v⟩ := hd
    simp only [List.map_cons, dictGet?_cons, ih]
    cases h : dictGet? tl key <;> simp [h]

theorem exceptBind_ok_iff {α β : Type} (x : Except String α) (f : α → Except String β) (b : β) :
    (x >>= f) = .ok b ↔ ∃ a, x = .ok a ∧ f a = .ok b := by
  cases x <;> simp [Bind.bind, Except.bind]

theorem fieldInt_ok_present {fs : List (String × Json)} {nm : String} {n : Int}
    (h : fieldInt fs nm = .ok n) : ∃ v, dictGet? fs nm = some v ∧ validateInt v = .ok n := by
  unfold fieldInt at h
  split at h
  · exact absurd h (by simp)
  · rename_i v hv
    split at h
    · rename_i m hm
      refine ⟨v, hv, ?_⟩
      cases h
      exact hm
    · exact absurd h (by simp)

theorem fieldStr_ok_present {fs : List (String × Json)} {nm : String} {s : String}
    (h : fieldStr fs nm = .ok s) : ∃ v, dictGet? fs nm = some v ∧ validateStr v = .ok s := by
  unfold fieldStr at h
  split at h
  · exact absurd h (by simp)
  · rename_i v hv
    split at h
    · rename_i m hm
      refine ⟨v, hv, ?_⟩
      cases h
      exact hm
    · exact absurd h (by simp)

theorem fieldInt_congr {fs fs' : List (String × Json)} (nm : String)
    (h : dictGet? fs nm = dictGet? fs' nm) : fieldInt fs nm = fieldInt fs' nm := by
  unfold fieldInt
  rw [h]

theorem fieldStr_congr {fs fs' : List (String × Json)} (nm : String)
    (h : dictGet? fs nm = dictGet? fs' nm) : fieldStr fs nm = fieldStr fs' nm := by
  unfold fieldStr
  rw [h]

theorem Province.validate_obj_ok (fs : List (String × Json))
    (i : Int) (nm ty ow : String) (dv : Int) (tg te de : String)
    (h1 : fieldInt fs "id" = .ok i) (h2 : fieldStr fs "name" = .ok nm)
    (h3 : fieldStr fs "type" = .ok ty) (h4 : fieldStr fs "owner" = .ok ow)
    (h5 : fieldInt fs "development" = .ok dv) (h6 : fieldStr fs "trade_goods" = .ok tg)
    (h7 : fieldStr fs "terrain" = .ok te) (h8 : fieldStr fs "description" = .ok de) :
    Province.validate (.obj fs) = .ok ⟨i, nm, ty, ow, dv, tg, te, de⟩ := by
  simp [Province.validate, Bind.bind, Except.bind, h1, h2, h3, h4, h5, h6, h7, h8]

theorem Province.validate_ok_fields {fs : List (String × Json)} {p : Province}
    (h : Province.validate (.obj fs) = .ok p) :
    fieldInt fs "id" = .ok p.id ∧ fieldStr fs "name" = .ok p.name ∧
    fieldStr fs "type" = .ok p.type ∧ fieldStr fs "owner" = .ok p.owner ∧
    fieldInt fs "development" = .ok p.development ∧
    fieldStr fs "trade_goods" = .ok p.trade_goods ∧
    fieldStr fs "terrain" = .ok p.terrain ∧
    fieldStr fs "description" = .ok p.description := by
  simp only [Province.validate, exceptBind_ok_iff] at h
  obtain ⟨i, h1, nm, h2, ty, h3, ow, h4, dv, h5, tg, h6, te, h7, de, h8, hfin⟩ := h
  have hp : p = ⟨i, nm, ty, ow, dv, tg, te, de⟩ := by
    cases hfin
    rfl
  subst hp
  exact ⟨h1, h2, h3, h4, h5, h6, h7, h8⟩

theorem Province.validate_error_of_missing {fs : List (String × Json)} {fname : String}
    (hm : fname ∈ fieldNames) (hnone : dictGet? fs fname = none) :
    ∃ e, Province.validate (.obj fs) = .error e := by
  cases hres : Province.validate (.obj fs) with
  | error e => exact ⟨e, rfl⟩
  | ok p =>
    exfalso
    obtain ⟨h1, h2, h3, h4, h5, h6, h7, h8⟩ := Province.validate_ok_fields hres
    simp only [fieldNames, List.mem_cons, List.not_mem_nil, or_false] at hm
    rcases hm with hm | hm | hm | hm | hm | hm | hm | hm <;> subst hm
    · obtain ⟨v, hv, -⟩ := fieldInt_ok_present h1
      rw [hnone] at hv
      exact Option.noConfusion hv
    · obtain ⟨v, hv, -⟩ := fieldStr_ok_present h2
      rw [hnone] at hv
      exact Option.noConfusion hv
    · obtain ⟨v, hv, -⟩ := fieldStr_ok_present h3
      rw [hnone] at hv
      exact Option.noConfusion hv
    · obtain ⟨v, hv, -⟩ := fieldStr_ok_present h4
      rw [hnone] at hv
      exact Option.noConfusion hv
    · obtain ⟨v, hv, -⟩ := fieldInt_ok_present h5
      rw [hnone] at hv
      exact Option.noConfusion hv
    · obtain ⟨v, hv, -⟩ := fieldStr_ok_present h6
      rw [hnone] at hv
      exact Option.noConfusion hv
    · obtain ⟨v, hv, -⟩ := fieldStr_ok_present h7
      rw [hnone] at hv
      exact Option.noConfusion hv
    · obtain ⟨v, hv, -⟩ := fieldStr_ok_present h8
      rw [hnone] at hv
      exact Option.noConfusion hv

theorem validateEntries_ok_get {ps : List (String × Json)} {entries : List (String × Province)}
    (h : validateEntries ps = .ok entries) (k : String) :
    match dictGet? ps k, dictGet? entries k with
    | some payload, some p => Province.validate payload = .ok p
    | none, none => True
    | _, _ => False := by
  induction ps generalizing entries with
  | nil =>
    cases h
    simp
  | cons hd tl ih =>
    obtain ⟨k', v⟩ := hd
    cases hval : Province.validate v with
    | error e =>
      simp only [validateEntries, hval] at h
      exact absurd h (by simp [Bind.bind, Except.bind])
    | ok p0 =>
      simp only [validateEntries, hval, exceptBind_ok_iff] at h
      obtain ⟨a, ha, rest', hrest, hfin⟩ := h
      cases ha
      injection hfin with hfin2
      subst hfin2
      have hrel := ih hrest
      rw [dictGet?_cons, dictGet?_cons]
      cases h1 : dictGet? tl k <;> cases h2 : dictGet? rest' k <;> rw [h1, h2] at hrel
      · by_cases hk : k' = k
        · subst hk
          simpa using hval
        · simp [hk]
      · exact hrel.elim
      · exact hrel.elim
      · exact hrel

theorem validateEntries_error {ps : List (String × Json)} {k : String} {payload : Json}
    (hget : dictGet? ps k = some payload)
    (hbad : ∀ p, Province.validate payload ≠ .ok p) :
    ∃ e, validateEntries ps = .error e := by
  cases hres : validateEntries ps with
  | error e => exact ⟨e, rfl⟩
  | ok entries =>
    exfalso
    have hrel := validateEntries_ok_get hres k
    rw [hget] at hrel
    cases h2 : dictGet? entries k <;> rw [h2] at hrel
    · exact hrel
    · exact hbad _ hrel

/-- C1: loading from a nonexistent `provinces.json` returns `ProvincesData()`,
whose `provinces` mapping is empty; no error is possible on that path. -/
theorem load_provinces_absent_empty :
    Helpers.load_provinces FileState.absent = LoadResult.ok ProvincesData.empty ∧
    ProvincesData.empty.provinces = [] := ⟨rfl, rfl⟩

/-- C8: the Loader in `src/core/helpers.py` and the copy inlined in
`src/main.py` compute the same result on every file-system state — the same
dataset or the same error. -/
theorem helper_main_loader_agree :
    ∀ fs : FileState, Helpers.load_provinces fs = Main.load_provinces fs := fun _ => rfl

/-- C6: a malformed file propagates the parse error and never yields a
dataset; a document failing validation propagates exactly that validation
error and never yields a dataset. -/
theorem loader_propagates_errors :
    (Helpers.load_provinces FileState.malformed = LoadResult.parseError ∧
      ∀ d, Helpers.load_provinces FileState.malformed ≠ LoadResult.ok d) ∧
    ∀ j e, ProvincesData.validate j = .error e →
      Helpers.load_provinces (FileState.content j) = LoadResult.validationError e ∧
      ∀ d, Helpers.load_provinces (FileState.content j) ≠ LoadResult.ok d := by
  refine ⟨⟨rfl, fun d h => LoadResult.noConfusion h⟩, ?_⟩
  intro j e he
  have hv : Helpers.load_provinces (.content j) = .validationError e := by
    simp [Helpers.load_provinces, he]
  exact ⟨hv, fun d h => by rw [hv] at h; exact LoadResult.noConfusion h⟩

/-- Witness for C6 at a concrete input: the non-dict document `5` fails
validation and the Loader surfaces that exact error. -/
theorem loader_propagates_errors_witness :
    Helpers.load_provinces (FileState.content (.int 5)) =
      LoadResult.validationError "Input should be a valid dictionary" :=
  (loader_propagates_errors.2 (.int 5) _ rfl).1

/-- C2: a document whose `provinces` mapping contains a record missing any
required field fails container validation outright — an error, never a
partial dataset. -/
theorem container_validation_all_or_nothing
    (docFields pfields payloadFields : List (String × Json)) (k fname : String)
    (hp : dictGet? docFields "provinces" = some (.obj pfields))
    (hentry : dictGet? pfields k = some (.obj payloadFields))
    (hfname : fname ∈ fieldNames)
    (hmissing : dictGet? payloadFields fname = none) :
    ∃ e, ProvincesData.validate (.obj docFields) = Except.error e := by
  obtain ⟨e0, he0⟩ := Province.validate_error_of_missing hfname hmissing
  have hbad : ∀ p, Province.validate (.obj payloadFields) ≠ .ok p := by
    intro p hp'
    rw [he0] at hp'
    exact Except.noConfusion hp'
  obtain ⟨e1, he1⟩ := validateEntries_error hentry hbad
  exact ⟨e1, by simp [ProvincesData.validate, hp, he1]⟩

/-- Witness for C2: a document with one province lacking `development` (and
more) fails validation of the whole container. -/
theorem container_validation_all_or_nothing_witness :
    ∃ e, ProvincesData.validate
      (.obj [("provinces", .obj [("A", .obj [("id", .int 1)])])]) = Except.error e :=
  container_validation_all_or_nothing _ _ _ "A" "development" rfl rfl
    (by simp [fieldNames]) rfl

/-- C3: the `/api/provinces/{province_id}` lookup returns the serialized
province stored under the key exactly when the key is in the mapping, a 404
exactly when it is absent (determined by the keys alone — the `id` field plays
no role), and a 404 for every key on an empty dataset. -/
theorem get_province_lookup (d : ProvincesData) (k : String) :
    (∀ p, dictGet? d.provinces k = some p → get_province d k = .ok p.model_dump) ∧
    (dictGet? d.provinces k = none →
      get_province d k = .httpException 404 "Province not found") ∧
    (dictGet? d.provinces k = none ↔ k ∉ d.provinces.map Prod.fst) ∧
    (d.provinces = [] → get_province d k = .httpException 404 "Province not found") := by
  refine ⟨?_, ?_, dictGet?_eq_none_iff _ _, ?_⟩
  · intro p hp
    simp [get_province, hp]
  · intro h
    simp [get_province, h]
  · intro h
    simp [get_province, h]

/-- Witness for C3, the spec's own example shape: key `"123"` maps to a
province with `id = 999`; looking up `"123"` finds it, looking up `"999"`
(the id, not a key) is a 404, and any lookup on the empty dataset is a 404. -/
theorem get_province_lookup_witness :
    get_province ⟨[("123", ⟨999, "Northland", "land", "ABC", 5, "fur", "forest", "north"⟩)]⟩
        "123" =
      EndpointResult.ok
        (Province.model_dump ⟨999, "Northland", "land", "ABC", 5, "fur", "forest", "north"⟩) ∧
    get_province ⟨[("123", ⟨999, "Northland", "land", "ABC", 5, "fur", "forest", "north"⟩)]⟩
        "999" =
      EndpointResult.httpException 404 "Province not found" ∧
    get_province ProvincesData.empty "1" =
      EndpointResult.httpException 404 "Province not found" :=
  ⟨(get_province_lookup _ "123").1 _ rfl,
   (get_province_lookup _ "999").2.1 rfl,
   (get_province_lookup ProvincesData.empty "1").2.2.2 rfl⟩

/-- C10: a `development` field given as the decimal-digit JSON string `"3"`
passes validation at the loading interface and yields the integer `3`. -/
theorem development_digit_string_coerced :
    Helpers.load_provinces (FileState.content (.obj [("provinces", .obj [("SCO", .obj [
        ("id", .int 1), ("name", .str "Scotland"), ("type", .str "land"),
        ("owner", .str "SCO"), ("development", .str "3"),
        ("trade_goods", .str "wool"), ("terrain", .str "hills"),
        ("description", .str "A northern province.")])])])) =
      LoadResult.ok
        ⟨[("SCO", ⟨1, "Scotland", "land", "SCO", 3, "wool", "hills", "A northern province."⟩)]⟩ :=
  rfl

/-- C9: a payload whose declared fields validate is unaffected by additional
unknown fields — they are silently discarded and the resulting record holds
exactly the eight declared fields. -/
theorem extra_fields_ignored
    (fs extras : List (String × Json)) (p : Province)
    (hextras : ∀ e ∈ extras, e.1 ∉ fieldNames)
    (hok : Province.validate (.obj fs) = .ok p) :
    Province.validate (.obj (fs ++ extras)) = .ok p := by
  obtain ⟨h1, h2, h3, h4, h5, h6, h7, h8⟩ := Province.validate_ok_fields hok
  have hget : ∀ nm ∈ fieldNames, dictGet? (fs ++ extras) nm = dictGet? fs nm := by
    intro nm hnm
    rw [dictGet?_append]
    have hx : dictGet? extras nm = none := by
      rw [dictGet?_eq_none_iff]
      intro hmem
      obtain ⟨e, he, hfst⟩ := List.mem_map.mp hmem
      exact hextras e he (hfst.symm ▸ hnm)
    rw [hx]
  have e1 : fieldInt (fs ++ extras) "id" = .ok p.id := by
    rw [fieldInt_congr _ (hget "id" (by simp [fieldNames]))]
    exact h1
  have e2 : fieldStr (fs ++ extras) "name" = .ok p.name := by
    rw [fieldStr_congr _ (hget "name" (by simp [fieldNames]))]
    exact h2
  have e3 : fieldStr (fs ++ extras) "type" = .ok p.type := by
    rw [fieldStr_congr _ (hget "type" (by simp [fieldNames]))]
    exact h3
  have e4 : fieldStr (fs ++ extras) "owner" = .ok p.owner := by
    rw [fieldStr_congr _ (hget "owner" (by simp [fieldNames]))]
    exact h4
  have e5 : fieldInt (fs ++ extras) "development" = .ok p.development := by
    rw [fieldInt_congr _ (hget "development" (by simp [fieldNames]))]
    exact h5
  have e6 : fieldStr (fs ++ extras) "trade_goods" = .ok p.trade_goods := by
    rw [fieldStr_congr _ (hget "trade_goods" (by simp [fieldNames]))]
    exact h6
  have e7 : fieldStr (fs ++ extras) "terrain" = .ok p.terrain := by
    rw [fieldStr_congr _ (hget "terrain" (by simp [fieldNames]))]
    exact h7
  have e8 : fieldStr (fs ++ extras) "description" = .ok p.description := by
    rw [fieldStr_congr _ (hget "description" (by simp [fieldNames]))]
    exact h8
  exact Province.validate_obj_ok (fs ++ extras) p.id p.name p.type p.owner p.development
    p.trade_goods p.terrain p.description e1 e2 e3 e4 e5 e6 e7 e8

/-- Witness for C9: an extra `population` field is discarded and validation
still produces the eight-field record. -/
theorem extra_fields_ignored_witness :
    Province.validate (.obj ([("id", .int 1), ("name", .str "Scotland"),
        ("type", .str "land"), ("owner", .str "SCO"), ("development", .int 3),
        ("trade_goods", .str "wool"), ("terrain", .str "hills"),
        ("description", .str "A northern province.")] ++ [("population", .int 100)])) =
      .ok ⟨1, "Scotland", "land", "SCO", 3, "wool", "hills", "A northern province."⟩ :=
  extra_fields_ignored _ _ _ (by simp [fieldNames]) rfl

theorem typedOk_int_of {nm : String} {v : Json} (hnm : nm = "id" ∨ nm = "development")
    (h : typedOk nm v = true) : ∃ n, v = Json.int n := by
  unfold typedOk at h
  rw [if_pos hnm] at h
  cases v <;> first | exact ⟨_, rfl⟩ | simp at h

theorem typedOk_str_of {nm : String} {v : Json} (hnm : ¬(nm = "id" ∨ nm = "development"))
    (h : typedOk nm v = true) : ∃ s, v = Json.str s := by
  unfold typedOk at h
  rw [if_neg hnm] at h
  cases v <;> first | exact ⟨_, rfl⟩ | simp at h

theorem payload_schema_validate {pfs : List (String × Json)}
    (h : provincePayloadSchemaOk (.obj pfs) = true) :
    ∃ p, Province.validate (.obj pfs) = .ok p ∧
      ∀ name, (Province.model_dump p).get? name = (Json.obj pfs).get? name := by
  unfold provincePayloadSchemaOk at h
  rw [Bool.and_eq_true] at h
  obtain ⟨h1, h2⟩ := h
  rw [List.all_eq_true] at h1 h2
  have get_typed : ∀ nm ∈ fieldNames, ∃ v, dictGet? pfs nm = some v ∧ typedOk nm v = true := by
    intro nm hnm
    have hh := h2 nm hnm
    cases hv : dictGet? pfs nm
    · rw [hv] at hh
      exact absurd hh (by simp)
    · rw [hv] at hh
      exact ⟨_, rfl, hh⟩
  obtain ⟨vid, hvid, htid⟩ := get_typed "id" (by simp [fieldNames])
  obtain ⟨nid, rfl⟩ := typedOk_int_of (Or.inl rfl) htid
  obtain ⟨vname, hvname, htname⟩ := get_typed "name" (by simp [fieldNames])
  obtain ⟨sname, rfl⟩ := typedOk_str_of (by simp) htname
  obtain ⟨vtype, hvtype, httype⟩ := get_typed "type" (by simp [fieldNames])
  obtain ⟨stype, rfl⟩ := typedOk_str_of (by simp) httype
  obtain ⟨vowner, hvowner, htowner⟩ := get_typed "owner" (by simp [fieldNames])
  obtain ⟨sowner, rfl⟩ := typedOk_str_of (by simp) htowner
  obtain ⟨vdev, hvdev, htdev⟩ := get_typed "development" (by simp [fieldNames])
  obtain ⟨ndev, rfl⟩ := typedOk_int_of (Or.inr rfl) htdev
  obtain ⟨vtg, hvtg, httg⟩ := get_typed "trade_goods" (by simp [fieldNames])
  obtain ⟨stg, rfl⟩ := typedOk_str_of (by simp) httg
  obtain ⟨vter, hvter, htter⟩ := get_typed "terrain" (by simp [fieldNames])
  obtain ⟨ster, rfl⟩ := typedOk_str_of (by simp) htter
  obtain ⟨vdesc, hvdesc, htdesc⟩ := get_typed "description" (by simp [fieldNames])
  obtain ⟨sdesc, rfl⟩ := typedOk_str_of (by simp) htdesc
  have f1 : fieldInt pfs "id" = .ok nid := by simp [fieldInt, hvid, validateInt]
  have f2 : fieldStr pfs "name" = .ok sname := by simp [fieldStr, hvname, validateStr]
  have f3 : fieldStr pfs "type" = .ok stype := by simp [fieldStr, hvtype, validateStr]
  have f4 : fieldStr pfs "owner" = .ok sowner := by simp [fieldStr, hvowner, validateStr]
  have f5 : fieldInt pfs "development" = .ok ndev := by simp [fieldInt, hvdev, validateInt]
  have f6 : fieldStr pfs "trade_goods" = .ok stg := by simp [fieldStr, hvtg, validateStr]
  have f7 : fieldStr pfs "terrain" = .ok ster := by simp [fieldStr, hvter, validateStr]
  have f8 : fieldStr pfs "description" = .ok sdesc := by simp [fieldStr, hvdesc, validateStr]
  refine ⟨⟨nid, sname, stype, sowner, ndev, stg, ster, sdesc⟩,
    Province.validate_obj_ok pfs nid sname stype sowner ndev stg ster sdesc
      f1 f2 f3 f4 f5 f6 f7 f8, ?_⟩
  intro name
  by_cases hmem : name ∈ fieldNames
  · simp only [fieldNames, List.mem_cons, List.not_mem_nil, or_false] at hmem
    rcases hmem with hmem | hmem | hmem | hmem | hmem | hmem | hmem | hmem <;> subst hmem
    · simp [Province.model_dump, Json.get?, dictGet?, hvid]
    · simp [Province.model_dump, Json.get?, dictGet?, hvname]
    · simp [Province.model_dump, Json.get?, dictGet?, hvtype]
    · simp [Province.model_dump, Json.get?, dictGet?, hvowner]
    · simp [Province.model_dump, Json.get?, dictGet?, hvdev]
    · simp [Province.model_dump, Json.get?, dictGet?, hvtg]
    · simp [Province.model_dump, Json.get?, dictGet?, hvter]
    · simp [Province.model_dump, Json.get?, dictGet?, hvdesc]
  · have hdump : (Province.model_dump ⟨nid, sname, stype, sowner, ndev, stg, ster, sdesc⟩).get?
        name = none := by
      simp only [Province.model_dump, Json.get?]
      rw [dictGet?_eq_none_iff]
      simpa [fieldNames] using hmem
    have hpfs : dictGet? pfs name = none := by
      rw [dictGet?_eq_none_iff]
      intro hmem'
      obtain ⟨e, he, hfst⟩ := List.mem_map.mp hmem'
      exact hmem (hfst ▸ of_decide_eq_true (h1 e he))
    rw [hdump]
    simp only [Json.get?]
    rw [hpfs]

theorem payload_schema_validate' {payload : Json}
    (h : provincePayloadSchemaOk payload = true) :
    ∃ p, Province.validate payload = .ok p ∧
      ∀ name, (Province.model_dump p).get? name = payload.get? name := by
  cases payload with
  | obj pfs => exact payload_schema_validate h
  | null => simp [provincePayloadSchemaOk] at h
  | bool b => simp [provincePayloadSchemaOk] at h
  | int n => simp [provincePayloadSchemaOk] at h
  | str s => simp [provincePayloadSchemaOk] at h
  | arr xs => simp [provincePayloadSchemaOk] at h

theorem validateEntries_ok_of_all {ps : List (String × Json)}
    (h : ∀ e ∈ ps, ∃ p, Province.validate e.2 = .ok p) :
    ∃ entries, validateEntries ps = .ok entries := by
  induction ps with
  | nil => exact ⟨[], rfl⟩
  | cons hd tl ih =>
    obtain ⟨k, v⟩ := hd
    obtain ⟨p, hp⟩ := h (k, v) (List.mem_cons_self _ _)
    obtain ⟨es, hes⟩ := ih (fun e he => h e (List.mem_cons_of_mem _ he))
    refine ⟨(k, p) :: es, ?_⟩
    simp [validateEntries, hp, hes, Bind.bind, Except.bind]

/-- C5: loading any document that matches the §6 schema succeeds, and
serializing the loaded dataset reproduces an equivalent `provinces` mapping —
the same keys, each mapped to a record with the same eight field values, key
order not significant. -/
theorem load_dump_roundtrip (j : Json) (h : docSchemaOk j = true) :
    ∃ d, Helpers.load_provinces (.content j) = .ok d ∧
      mapEquiv (provincesOf (ProvincesData.model_dump d)) (provincesOf j) := by
  cases j with
  | null => simp [docSchemaOk] at h
  | bool b => simp [docSchemaOk] at h
  | int n => simp [docSchemaOk] at h
  | str s => simp [docSchemaOk] at h
  | arr xs => simp [docSchemaOk] at h
  | obj fs =>
    unfold docSchemaOk at h
    rw [Bool.and_eq_true] at h
    obtain ⟨h1, h2⟩ := h
    cases hp : dictGet? fs "provinces" with
    | none =>
      rw [hp] at h2
      exact absurd h2 (by simp)
    | some pv =>
      rw [hp] at h2
      cases pv with
      | null => exact absurd h2 (by simp)
      | bool b => exact absurd h2 (by simp)
      | int n => exact absurd h2 (by simp)
      | str s => exact absurd h2 (by simp)
      | arr xs => exact absurd h2 (by simp)
      | obj ps =>
        simp only [List.all_eq_true] at h2
        have hallok : ∀ e ∈ ps, ∃ p, Province.validate e.2 = .ok p :=
          fun e he => ((payload_schema_validate' (h2 e he)).imp (fun p hp' => hp'.1))
        obtain ⟨entries, hentries⟩ := validateEntries_ok_of_all hallok
        refine ⟨⟨entries⟩, ?_, ?_⟩
        · simp [Helpers.load_provinces, ProvincesData.validate, hp, hentries]
        · have hdumpProv : provincesOf (ProvincesData.model_dump ⟨entries⟩) =
              entries.map (fun e => (e.1, e.2.model_dump)) := by
            simp [provincesOf, ProvincesData.model_dump, Json.get?, dictGet?]
          have horig : provincesOf (.obj fs) = ps := by
            simp [provincesOf, Json.get?, hp]
          unfold mapEquiv
          intro k
          rw [hdumpProv, horig, dictGet?_map_value]
          have hrel := validateEntries_ok_get hentries k
          cases hh1 : dictGet? ps k <;> cases hh2 : dictGet? entries k <;>
            rw [hh1, hh2] at hrel <;> simp only [Option.map_some', Option.map_none']
          all_goals first
            | trivial
            | exact hrel.elim
            | (rename_i payload p
               obtain ⟨p', hv', hequiv⟩ := payload_schema_validate'
                 (h2 (k, payload) (dictGet?_mem hh1))
               rw [hrel] at hv'
               injection hv' with hpe
               subst hpe
               exact hequiv)

/-- Witness for C5: the spec's §8 example document loads and round-trips. -/
theorem load_dump_roundtrip_witness :
    ∃ d, Helpers.load_provinces (FileState.content (.obj [("provinces", .obj [("SCO", .obj [
        ("id", .int 1), ("name", .str "Scotland"), ("type", .str "land"),
        ("owner", .str "SCO"), ("development", .int 3), ("trade_goods", .str "wool"),
        ("terrain", .str "hills"), ("description", .str "A northern province.")])])])) =
          .ok d ∧
      mapEquiv (provincesOf (ProvincesData.model_dump d))
        (provincesOf (.obj [("provinces", .obj [("SCO", .obj [
          ("id", .int 1), ("name", .str "Scotland"), ("type", .str "land"),
          ("owner", .str "SCO"), ("development", .int 3), ("trade_goods", .str "wool"),
          ("terrain", .str "hills"), ("description", .str "A northern province.")])])])) :=
  load_dump_roundtrip _ rfl

theorem lexLe_total : ∀ a b : List Char, lexLe a b = true ∨ lexLe b a = true := by
  intro a
  induction a with
  | nil => intro b; exact Or.inl rfl
  | cons x xs ih =>
    intro b
    cases b with
    | nil => exact Or.inr rfl
    | cons y ys =>
      by_cases hxy : x.toNat = y.toNat
      · rcases ih ys with h | h
        · left
          simp [lexLe, hxy, h]
        · right
          simp [lexLe, hxy.symm, h]
      · rcases Nat.lt_or_ge x.toNat y.toNat with h | h
        · left
          simp [lexLe, hxy, h]
        · have hne : ¬y.toNat = x.toNat := fun e => hxy e.symm
          have h' : y.toNat < x.toNat := Nat.lt_of_le_of_ne h (fun e => hxy e.symm)
          right
          simp [lexLe, hne, h']

theorem lexLe_trans : ∀ a b c : List Char,
    lexLe a b = true → lexLe b c = true → lexLe a c = true := by
  intro a
  induction a with
  | nil => intro b c _ _; rfl
  | cons x xs ih =>
    intro b c hab hbc
    cases b with
    | nil => simp [lexLe] at hab
    | cons y ys =>
      cases c with
      | nil => simp [lexLe] at hbc
      | cons z zs =>
        simp only [lexLe] at hab hbc ⊢
        by_cases h1 : x.toNat = y.toNat <;> by_cases h2 : y.toNat = z.toNat
        · rw [if_pos h1] at hab
          rw [if_pos h2] at hbc
          rw [if_pos (h1.trans h2)]
          exact ih ys zs hab hbc
        · rw [if_pos h1] at hab
          rw [if_neg h2] at hbc
          have hne : ¬x.toNat = z.toNat := by rw [h1]; exact h2
          rw [if_neg hne, h1]
          exact hbc
        · rw [if_neg h1] at hab
          rw [if_pos h2] at hbc
          have hne : ¬x.toNat = z.toNat := by rw [← h2]; exact h1
          rw [if_neg hne, ← h2]
          exact hab
        · rw [if_neg h1] at hab
          rw [if_neg h2] at hbc
          have hlt := Nat.lt_trans (of_decide_eq_true hab) (of_decide_eq_true hbc)
          rw [if_neg (Nat.ne_of_lt hlt)]
          exact decide_eq_true hlt

theorem strLe_total (a b : String) : strLe a b = true ∨ strLe b a = true :=
  lexLe_total _ _

theorem strLe_trans {a b c : String} (h1 : strLe a b = true) (h2 : strLe b c = true) :
    strLe a c = true :=
  lexLe_trans _ _ _ h1 h2

theorem insertSorted_perm (x : String) (l : List String) :
    (insertSorted x l).Perm (x :: l) := by
  induction l with
  | nil => exact List.Perm.refl _
  | cons y ys ih =>
    rw [insertSorted]
    by_cases h : strLe x y = true
    · rw [if_pos h]
    · rw [if_neg h]
      exact (List.Perm.cons y ih).trans (List.Perm.swap x y ys)

theorem sortStrings_perm (l : List String) : (sortStrings l).Perm l := by
  induction l with
  | nil => exact List.Perm.refl _
  | cons x xs ih =>
    rw [sortStrings]
    exact (insertSorted_perm x (sortStrings xs)).trans (List.Perm.cons x ih)

theorem mem_insertSorted {a x : String} {l : List String} :
    a ∈ insertSorted x l ↔ a = x ∨ a ∈ l := by
  have h := (insertSorted_perm x l).mem_iff (a := a)
  simpa using h

theorem pairwise_insertSorted {x : String} {l : List String}
    (hl : l.Pairwise (fun a b => strLe a b = true)) :
    (insertSorted x l).Pairwise (fun a b => strLe a b = true) := by
  induction l with
  | nil => simp [insertSorted]
  | cons y ys ih =>
    rw [List.pairwise_cons] at hl
    obtain ⟨hy, hys⟩ := hl
    rw [insertSorted]
    by_cases h : strLe x y = true
    · rw [if_pos h, List.pairwise_cons]
      refine ⟨?_, List.Pairwise.cons hy hys⟩
      intro b hb
      rcases List.mem_cons.mp hb with rfl | hb'
      · exact h
      · exact strLe_trans h (hy b hb')
    · rw [if_neg h, List.pairwise_cons]
      refine ⟨?_, ih hys⟩
      intro b hb
      rcases mem_insertSorted.mp hb with rfl | hb'
      · rcases strLe_total b y with h' | h'
        · exact absurd h' h
        · exact h'
      · exact hy b hb'

theorem pairwise_sortStrings (l : List String) :
    (sortStrings l).Pairwise (fun a b => strLe a b = true) := by
  induction l with
  | nil => simp [sortStrings]
  | cons x xs ih =>
    rw [sortStrings]
    exact pairwise_insertSorted ih

theorem strToList_append (s t : String) : (s ++ t).toList = s.toList ++ t.toList :=
  String.data_append s t

theorem globMapPng_iff (name : String) :
    globMapPng name = true ↔ ∃ a b : String, name = a ++ "map" ++ b ++ ".png" := by
  constructor
  · intro h
    simp only [globMapPng, Bool.and_eq_true] at h
    obtain ⟨hsuf, hsub⟩ := h
    rw [List.isSuffixOf_iff_suffix] at hsuf
    obtain ⟨pre, hpre⟩ := hsuf
    have hlen : name.toList.length = pre.length + 4 := by
      rw [← hpre]
      simp
    have htake : name.toList.take (name.toList.length - 4) = pre := by
      rw [hlen, ← hpre, Nat.add_sub_cancel]
      exact List.take_left' rfl
    unfold containsSub at hsub
    rw [htake, List.any_eq_true] at hsub
    obtain ⟨t, ht, hpref⟩ := hsub
    rw [List.mem_tails] at ht
    rw [ List.isPrefixOf_iff_prefix] at hpref
    obtain ⟨a0, ha0⟩ := ht
    obtain ⟨b0, hb0⟩ := hpref
    have hpre' : pre = a0 ++ ("map".toList ++ b0) := by
      rw [← ha0, hb0]
    refine ⟨⟨a0⟩, ⟨b0⟩, ?_⟩
    apply String.ext
    show name.data = (⟨a0⟩ ++ "map" ++ ⟨b0⟩ ++ ".png" : String).data
    rw [String.data_append, String.data_append, String.data_append]
    have hd : name.data = pre ++ ".png".toList := hpre.symm
    rw [hd, hpre']
    simp [List.append_assoc]
  · rintro ⟨a, b, rfl⟩
    simp only [globMapPng, Bool.and_eq_true]
    have hdata : (a ++ "map" ++ b ++ ".png").toList =
        ((a.toList ++ "map".toList) ++ b.toList) ++ ".png".toList := by
      rw [strToList_append, strToList_append, strToList_append]
    constructor
    · rw [List.isSuffixOf_iff_suffix, hdata]
      exact ⟨(a.toList ++ "map".toList) ++ b.toList, rfl⟩
    · have htake : ((a ++ "map" ++ b ++ ".png").toList).take
          ((a ++ "map" ++ b ++ ".png").toList.length - 4) =
          (a.toList ++ "map".toList) ++ b.toList := by
        rw [hdata, List.length_append]
        have h4 : (".png".toList : List Char).length = 4 := rfl
        rw [h4, Nat.add_sub_cancel]
        exact List.take_left' rfl
      unfold containsSub
      rw [htake, List.any_eq_true]
      refine ⟨"map".toList ++ b.toList, ?_, ?_⟩
      · rw [List.mem_tails]
        exact ⟨a.toList, (List.append_assoc _ _ _).symm⟩
      · rw [ List.isPrefixOf_iff_prefix]
        exact ⟨b.toList, rfl⟩

/-- Counterexample to C7 as stated: `ocean.png` is an image file (a `.png`),
is not one of the two reserved names, and is present in the directory, yet
the listing omits it — the code only returns names matching `*map*.png`. -/
theorem map_layers_miss_plain_image :
    (".png".toList.isSuffixOf "ocean.png".toList = true) ∧
    "ocean.png" ∉ ["data_map.png", "visual_map.png"] ∧
    _get_map_layer_files (some ["ocean.png"]) = [] := by
  refine ⟨rfl, ?_, rfl⟩
  simp

/-- C7 (amended): the listing is empty when the directory is absent, and
otherwise returns exactly the directory entries matching the glob `*map*.png`
(names of the form `a ++ "map" ++ b ++ ".png"`) minus the two reserved names,
in sorted (code-point lexicographic) order. -/
theorem map_layer_files_spec :
    _get_map_layer_files none = [] ∧
    (∀ n : String, globMapPng n = true ↔ ∃ a b : String, n = a ++ "map" ++ b ++ ".png") ∧
    ∀ files : List String,
      (_get_map_layer_files (some files)).Perm
        ((files.filter globMapPng).filter
          (fun n => (n != "data_map.png") && (n != "visual_map.png"))) ∧
      (_get_map_layer_files (some files)).Pairwise (fun a b => strLe a b = true) :=
  ⟨rfl, globMapPng_iff,
   fun _ => ⟨sortStrings_perm _, pairwise_sortStrings _⟩⟩

/-- Witness for the amended C7 at a concrete directory listing. -/
theorem map_layer_files_spec_witness :
    (_get_map_layer_files (some ["zz_map.png", "a_map.png", "data_map.png"])).Perm
      ((["zz_map.png", "a_map.png", "data_map.png"].filter globMapPng).filter
        (fun n => (n != "data_map.png") && (n != "visual_map.png"))) :=
  (map_layer_files_spec.2.2 ["zz_map.png", "a_map.png", "data_map.png"]).1
